import Mathlib

/-!
# A shallow embedding of the `creditcarbon` ledger core

This file embeds the two modules with real logic — `src/blockchain.py`
(`Block`, `Blockchain.create_block`, `Blockchain.hash_block`) and
`src/identity.py` (`Identity`, `create_identity`, `verify_identity`) — as
executable Lean definitions, and proves the specified properties about them.

Modelling conventions:
* JSON-like payloads are the inductive `Json` (strings, naturals, objects);
  the repository only ever stores string- and number-valued dictionaries.
* Python's `time.time()` float timestamps are modelled as naturals supplied
  explicitly by the caller; `uuid.uuid4()` is likewise an explicit argument.
  Neither substitution affects any property proved here: both values flow
  into the block unchanged.
* `json.dumps(..., sort_keys=True)` is modelled by `dumps`: object members
  are rendered recursively and then sorted by key — since the comparator
  reads only the key, this yields the same string as sorting first.
  Default separators `", "` / `": "` and `ensure_ascii` escaping are used,
  so the serialized form is pure ASCII and `.encode()` is a code-point map.
* `hashlib.sha256(...).hexdigest()` is a full SHA-256 over byte lists,
  with 32-bit words as naturals reduced `% 2^32`.
-/

/-- JSON-like values as stored in a block's `data` field. -/
inductive Json where
  | str (s : String)
  | num (n : Nat)
  | obj (members : List (String × Json))

/-! ## SHA-256 over byte lists (`hashlib.sha256(...).hexdigest()`) -/

/-- Truncate to a 32-bit word. -/
def w32 (x : Nat) : Nat := x % 4294967296

/-- Right-rotation of a 32-bit word. -/
def rotr (n x : Nat) : Nat := w32 ((x >>> n) ||| (x <<< (32 - n)))

/-- The 64 SHA-256 round constants, written in decimal. -/
def shaK : List Nat :=
  [1116352408, 1899447441, 3049323471, 3921009573, 961987163,
   1508970993, 2453635748, 2870763221, 3624381080, 310598401,
   607225278, 1426881987, 1925078388, 2162078206, 2614888103,
   3248222580, 3835390401, 4022224774, 264347078, 604807628,
   770255983, 1249150122, 1555081692, 1996064986, 2554220882,
   2821834349, 2952996808, 3210313671, 3336571891, 3584528711,
   113926993, 338241895, 666307205, 773529912, 1294757372,
   1396182291, 1695183700, 1986661051, 2177026350, 2456956037,
   2730485921, 2820302411, 3259730800, 3345764771, 3516065817,
   3600352804, 4094571909, 275423344, 430227734, 506948616,
   659060556, 883997877, 958139571, 1322822218, 1537002063,
   1747873779, 1955562222, 2024104815, 2227730452, 2361852424,
   2428436474, 2756734187, 3204031479, 3329325298]

/-- The eight SHA-256 initial hash words, written in decimal. -/
def shaInit : List Nat :=
  [1779033703, 3144134277, 1013904242, 2773480762,
   1359893119, 2600822924, 528734635, 1541459225]

/-- Group bytes into big-endian 32-bit words. -/
def bytesToWords : List Nat → List Nat
  | b0 :: b1 :: b2 :: b3 :: rest => (b0 <<< 24 ||| b1 <<< 16 ||| b2 <<< 8 ||| b3) :: bytesToWords rest
  | _ => []

/-- Extend a 16-word block to the 64-word message schedule (`k` extension steps). -/
def extendSchedule (ws : List Nat) : Nat → List Nat
  | 0 => ws
  | k + 1 =>
    let i := ws.length
    let w15 := ws.getD (i - 15) 0
    let w2 := ws.getD (i - 2) 0
    let s0 := w32 ((rotr 7 w15) ^^^ (rotr 18 w15) ^^^ (w15 >>> 3))
    let s1 := w32 ((rotr 17 w2) ^^^ (rotr 19 w2) ^^^ (w2 >>> 10))
    extendSchedule (ws ++ [w32 (ws.getD (i - 16) 0 + s0 + ws.getD (i - 7) 0 + s1)]) k

/-- One SHA-256 compression round; the state is the 8-word working vector. -/
def compressStep (st : List Nat) (wk : Nat × Nat) : List Nat :=
  match st with
  | [a, b, c, d, e, f, g, hh] =>
    let s1 := (rotr 6 e) ^^^ (rotr 11 e) ^^^ (rotr 25 e)
    let ch := (e &&& f) ^^^ ((4294967295 - e) &&& g)
    let temp1 := w32 (hh + s1 + ch + wk.2 + wk.1)
    let s0 := (rotr 2 a) ^^^ (rotr 13 a) ^^^ (rotr 22 a)
    let maj := (a &&& b) ^^^ (a &&& c) ^^^ (b &&& c)
    let temp2 := w32 (s0 + maj)
    [w32 (temp1 + temp2), a, b, c, w32 (d + temp1), e, f, g]
  | _ => st

/-- Compress one 64-byte block into the running 8-word state. -/
def compress (st : List Nat) (blockBytes : List Nat) : List Nat :=
  let ws := extendSchedule (bytesToWords blockBytes) 48
  let s := (List.zip ws shaK).foldl compressStep st
  (List.zip st s).map (fun p => w32 (p.1 + p.2))

/-- Split a byte list into 64-byte chunks (the fuel is the list length). -/
def chunksAux : Nat → List Nat → List (List Nat)
  | 0, _ => []
  | _, [] => []
  | fuel + 1, l => l.take 64 :: chunksAux fuel (l.drop 64)

/-- The 64-bit big-endian message length (in bits) of the SHA-256 padding. -/
def bitlenBytes (n : Nat) : List Nat :=
  [(n >>> 56) % 256, (n >>> 48) % 256, (n >>> 40) % 256, (n >>> 32) % 256,
   (n >>> 24) % 256, (n >>> 16) % 256, (n >>> 8) % 256, n % 256]

/-- SHA-256 message padding: `0x80`, zeros to 56 mod 64, then the bit length. -/
def sha256pad (msg : List Nat) : List Nat :=
  let len := msg.length
  let zeros := (119 - len % 64) % 64
  msg ++ 128 :: List.replicate zeros 0 ++ bitlenBytes (len * 8)

/-- Lowercase hexadecimal digit. -/
def hexDigit (n : Nat) : Char :=
  if n < 10 then Char.ofNat (48 + n) else Char.ofNat (87 + n)

/-- Lowercase hexadecimal rendering of one 32-bit word. -/
def wordHex (x : Nat) : List Char :=
  [hexDigit ((x >>> 28) % 16), hexDigit ((x >>> 24) % 16), hexDigit ((x >>> 20) % 16),
   hexDigit ((x >>> 16) % 16), hexDigit ((x >>> 12) % 16), hexDigit ((x >>> 8) % 16),
   hexDigit ((x >>> 4) % 16), hexDigit (x % 16)]

/-- SHA-256 of a byte list, rendered as the usual 64-character lowercase hex digest. -/
def sha256hex (msg : List Nat) : String :=
  let padded := sha256pad msg
  let final := (chunksAux padded.length padded).foldl compress shaInit
  String.mk (final.flatMap wordHex)

/-! ## Canonical JSON serialization (`json.dumps(..., sort_keys=True)`) -/

/-- A `\uXXXX` escape, as produced by `json.dumps` with `ensure_ascii`. -/
def uEscape (n : Nat) : String :=
  String.mk ['\\', 'u', hexDigit ((n >>> 12) % 16), hexDigit ((n >>> 8) % 16),
             hexDigit ((n >>> 4) % 16), hexDigit (n % 16)]

/-- JSON string escaping of one character, following `json.dumps` defaults
(`ensure_ascii=True`): short escapes for the common controls, `\uXXXX` for
other controls and all non-ASCII characters (surrogate pairs above U+FFFF). -/
def escapeChar (c : Char) : String :=
  if c = '"' then "\\\""
  else if c = '\\' then "\\\\"
  else if c = '\n' then "\\n"
  else if c = '\t' then "\\t"
  else if c = '\r' then "\\r"
  else if c.toNat = 8 then "\\b"
  else if c.toNat = 12 then "\\f"
  else if c.toNat < 32 then uEscape c.toNat
  else if c.toNat < 128 then String.singleton c
  else if c.toNat < 65536 then uEscape c.toNat
  else uEscape (55296 + ((c.toNat - 65536) >>> 10)) ++ uEscape (56320 + ((c.toNat - 65536) % 1024))

/-- JSON string escaping, character by character. -/
def escapeString (s : String) : String := String.join (s.data.map escapeChar)

/-- A JSON string literal: quotes around the escaped content. -/
def quoteStr (s : String) : String := "\"" ++ escapeString s ++ "\""

/-- Code-point lexicographic comparison of character lists — the order
Python's `sorted` uses on strings. -/
def charListLe : List Char → List Char → Bool
  | [], _ => true
  | _ :: _, [] => false
  | a :: as, b :: bs =>
    if a.toNat < b.toNat then true
    else if b.toNat < a.toNat then false
    else charListLe as bs

/-- Code-point lexicographic comparison of strings. -/
def strLe (a b : String) : Bool := charListLe a.data b.data

/-- The key ordering used by `sort_keys=True`: compare members by key only. -/
def keyLe (a b : String × String) : Prop := strLe a.1 b.1 = true

instance : DecidableRel keyLe := fun x y => inferInstanceAs (Decidable (strLe x.1 y.1 = true))

instance : IsTotal (String × String) keyLe := ⟨fun x y => by
  show charListLe x.1.data y.1.data = true ∨ charListLe y.1.data x.1.data = true
  generalize x.1.data = as
  generalize y.1.data = bs
  induction as generalizing bs with
  | nil => exact Or.inl rfl
  | cons a as ih =>
    cases bs with
    | nil => exact Or.inr rfl
    | cons b bs =>
      by_cases hab : a.toNat < b.toNat
      · left; simp [charListLe, hab]
      · by_cases hba : b.toNat < a.toNat
        · right; simp [charListLe, hba]
        · rcases ih bs with h | h
          · left; simp [charListLe, hab, hba, h]
          · right; simp [charListLe, hab, hba, h]⟩

instance : IsTrans (String × String) keyLe := ⟨fun x y z h1 h2 => by
  show charListLe x.1.data z.1.data = true
  rw [keyLe, strLe] at h1 h2
  generalize hx : x.1.data = as at h1
  generalize hy : y.1.data = bs at h1 h2
  generalize hz : z.1.data = cs at h2
  clear hx hy hz
  induction as generalizing bs cs with
  | nil => rfl
  | cons a as ih =>
    cases bs with
    | nil => simp [charListLe] at h1
    | cons b bs =>
      cases cs with
      | nil => simp [charListLe] at h2
      | cons c cs =>
        by_cases hab : a.toNat < b.toNat <;> by_cases hbc : b.toNat < c.toNat
        · simp [charListLe, show a.toNat < c.toNat by omega]
        · by_cases hcb : c.toNat < b.toNat
          · simp [charListLe, hbc, hcb] at h2
          · simp [charListLe, show a.toNat < c.toNat by omega]
        · by_cases hba : b.toNat < a.toNat
          · simp [charListLe, hab, hba] at h1
          · simp [charListLe, show a.toNat < c.toNat by omega]
        · by_cases hba : b.toNat < a.toNat
          · simp [charListLe, hab, hba] at h1
          · by_cases hcb : c.toNat < b.toNat
            · simp [charListLe, hbc, hcb] at h2
            · simp only [charListLe, if_neg hab, if_neg hba] at h1
              simp only [charListLe, if_neg hbc, if_neg hcb] at h2
              simp [charListLe, show ¬a.toNat < c.toNat by omega,
                show ¬c.toNat < a.toNat by omega, ih bs h1 cs h2]⟩

/-- Sort rendered members by key, as `sort_keys=True` does. -/
def sortPairs (l : List (String × String)) : List (String × String) :=
  List.insertionSort keyLe l

/-- Join rendered members with the default `", "` / `": "` separators. -/
def joinMembers : List (String × String) → String
  | [] => ""
  | [(k, v)] => quoteStr k ++ ": " ++ v
  | (k, v) :: rest => quoteStr k ++ ": " ++ v ++ ", " ++ joinMembers rest

mutual

/-- `json.dumps(value, sort_keys=True)`: strings are quoted and escaped,
numbers rendered in decimal, objects rendered with keys sorted. Members are
rendered first and then sorted by key; the comparator reads only the key, so
this equals sorting the members first as CPython does. -/
def dumps : Json → String
  | .str s => quoteStr s
  | .num n => toString n
  | .obj members => "\x7b" ++ joinMembers (sortPairs (dumpsPairs members)) ++ "\x7d"
termination_by structural j => j

/-- Render each object member's value, keeping its key. -/
def dumpsPairs : List (String × Json) → List (String × String)
  | [] => []
  | (k, v) :: rest => (k, dumps v) :: dumpsPairs rest
termination_by structural l => l

end

/-- UTF-8 encoding of one character (`str.encode()`); the serialized JSON is
pure ASCII, so only the first branch is ever exercised by `hash_block`. -/
def charUtf8 (c : Char) : List Nat :=
  let n := c.toNat
  if n < 128 then [n]
  else if n < 2048 then [192 + n / 64, 128 + n % 64]
  else if n < 65536 then [224 + n / 4096, 128 + (n / 64) % 64, 128 + n % 64]
  else [240 + n / 262144, 128 + (n / 4096) % 64, 128 + (n / 64) % 64, 128 + n % 64]

/-- `str.encode()`: UTF-8 bytes of a string. -/
def strBytes (s : String) : List Nat := s.data.flatMap charUtf8

/-! ## The ledger (`src/blockchain.py`) -/

/-- `Block.__init__`: the five stored fields. -/
structure Block where
  index : Nat
  previous_hash : String
  timestamp : Nat
  data : Json
  hash : String

structure Blockchain where
  chain : List Block

/-- `Blockchain.hash_block`: serialize the four fields as a dictionary with
`sort_keys=True` and take the SHA-256 hex digest of the UTF-8 encoding. -/
def hash_block (index : Nat) (previous_hash : String) (timestamp : Nat) (data : Json) : String :=
  sha256hex (strBytes (dumps (Json.obj
    [("index", Json.num index),
     ("previous_hash", Json.str previous_hash),
     ("timestamp", Json.num timestamp),
     ("data", data)])))

/-- `self.chain[-1].hash if self.chain else '0'`. -/
def lastHash : List Block → String
  | [] => "0"
  | [b] => b.hash
  | _ :: rest => lastHash rest

/-- `Blockchain.create_block`: build the next block from the current chain
and append it; the wall-clock `time.time()` value is the explicit `t`. -/
def Blockchain.create_block (bc : Blockchain) (data : Json) (t : Nat) : Block × Blockchain :=
  let index := bc.chain.length + 1
  let previous_hash := lastHash bc.chain
  let hash := hash_block index previous_hash t data
  let block : Block := ⟨index, previous_hash, t, data, hash⟩
  (block, ⟨bc.chain ++ [block]⟩)

/-- The genesis payload from `Blockchain.create_genesis_block`. -/
def genesisData : Json :=
  Json.obj [("type", Json.str "genesis"), ("message", Json.str "Genesis Block")]

/-- `Blockchain.create_genesis_block`: append the genesis payload. -/
def Blockchain.create_genesis_block (bc : Blockchain) (t : Nat) : Blockchain :=
  (bc.create_block genesisData t).2

/-- `Blockchain.__init__`: start from an empty chain and create the genesis
block at time `t`. -/
def Blockchain.init (t : Nat) : Blockchain :=
  Blockchain.create_genesis_block ⟨[]⟩ t

/-- A fresh ledger followed by one `create_block` call per element of
`inputs` (payload and `time.time()` value for each call). -/
def buildLedger (inputs : List (Json × Nat)) (t0 : Nat) : Blockchain :=
  inputs.foldl (fun bc pt => (bc.create_block pt.1 pt.2).2) (Blockchain.init t0)

/-! ## The record registry (`src/identity.py`) -/

/-- `Identity.__init__`; `uuid.uuid4()` is the explicit argument `uuid`. -/
structure Identity where
  uuid : String
  name : String
  id_number : String
  public_key : String

/-- `Identity.to_dict`: exactly the four stored fields, keyed as written. -/
def Identity.to_dict (x : Identity) : Json :=
  Json.obj [("uuid", Json.str x.uuid), ("name", Json.str x.name),
            ("id_number", Json.str x.id_number), ("public_key", Json.str x.public_key)]

/-- `create_identity`: construct and return an `Identity`; `u` stands for the
generated `uuid.uuid4()` string. The function touches no blockchain. -/
def create_identity (name : String) (id_number : String) (public_key : String)
    (u : String) : Identity :=
  ⟨u, name, id_number, public_key⟩

/-- Python `dict.get` over an association list (keys are unique in every
dictionary the program builds, so first-match lookup coincides with it). -/
def dictGet : List (String × Json) → String → Option Json
  | [], _ => none
  | (k, v) :: rest, key => if k = key then some v else dictGet rest key

/-- `.get` on a JSON value that may or may not be a dictionary. -/
def jsonGet : Json → String → Option Json
  | .obj members, key => dictGet members key
  | _, _ => none

/-- `isinstance(data, dict)`. -/
def Json.isObj : Json → Bool
  | .obj _ => true
  | _ => false

/-- The list of keys of a JSON dictionary (empty for non-dictionaries). -/
def jsonKeys : Json → List String
  | .obj members => members.map Prod.fst
  | _ => []

/-- `isinstance(data, dict) and data.get("type") == "identity"`: a non-string
or missing `type` value compares unequal to the string, as in Python. -/
def typeIsIdentity (d : Json) : Bool :=
  d.isObj && (match jsonGet d "type" with
    | some (.str s) => s == "identity"
    | _ => false)

/-- `data.get("id_number") == id_number` for a string query. -/
def idMatches (d : Json) (q : String) : Bool :=
  match jsonGet d "id_number" with
  | some (.str s) => s == q
  | _ => false

/-- The loop body of `verify_identity`: scan forward, return the first
payload that is a dictionary of type `"identity"` with the queried
`id_number`; a type-tagged block with the wrong `id_number` is skipped. -/
def verifyScan : List Block → String → Option Json
  | [], _ => none
  | b :: rest, q =>
    if typeIsIdentity b.data then
      if idMatches b.data q then some b.data else verifyScan rest q
    else verifyScan rest q

/-- `verify_identity(blockchain, id_number)`. -/
def verify_identity (bc : Blockchain) (id_number : String) : Option Json :=
  verifyScan bc.chain id_number

/-- Both checks of `verify_identity`'s match, as one predicate on a block. -/
def identityMatch (q : String) (b : Block) : Bool :=
  typeIsIdentity b.data && idMatches b.data q

/-! ## Chain validity and `validate()` -/

/-- The chain-validity invariant, positionally: every stored hash is the
content hash of the block's own four fields, the first block's
`previous_hash` is the sentinel `"0"`, and every later block's
`previous_hash` is the stored hash of the block before it. -/
def chainValid (l : List Block) : Prop :=
  (∀ i (h : i < l.length),
      (l.get ⟨i, h⟩).hash =
        hash_block (l.get ⟨i, h⟩).index (l.get ⟨i, h⟩).previous_hash
          (l.get ⟨i, h⟩).timestamp (l.get ⟨i, h⟩).data)
  ∧ (∀ h : 0 < l.length, (l.get ⟨0, h⟩).previous_hash = "0")
  ∧ (∀ i (h : i + 1 < l.length),
      (l.get ⟨i + 1, h⟩).previous_hash = (l.get ⟨i, Nat.lt_of_succ_lt h⟩).hash)

/-- Result of `validate()`: all checks passed, or the 1-based index of the
first block that failed one. -/
inductive ValidationResult where
  | valid
  | invalidAt (index : Nat)
  deriving DecidableEq

/-- Modelled from the spec: the repository has no `validate()` implementation
under `src/` — §4.1 describes it only. Walk the chain front to back carrying
the 1-based position and the previous block's hash (`none` before the first
block), check each block's stored hash against the recomputed content hash
and, for non-genesis blocks, its `previous_hash` against the previous block's
hash, and report the first failing position. -/
def validateFrom : Nat → Option String → List Block → ValidationResult
  | _, _, [] => .valid
  | i, prev, b :: rest =>
    if b.hash = hash_block b.index b.previous_hash b.timestamp b.data then
      match prev with
      | some p =>
        if b.previous_hash = p then validateFrom (i + 1) (some b.hash) rest
        else .invalidAt i
      | none => validateFrom (i + 1) (some b.hash) rest
    else .invalidAt i

/-- Modelled from the spec: `validate()` on a ledger starts the walk at the
first block (position 1), with no linkage expectation for the genesis block. -/
def Blockchain.validate (bc : Blockchain) : ValidationResult :=
  validateFrom 1 none bc.chain

/-- The linkage expectation for a block appended after `l`, when the walk
entered `l` expecting `p`. -/
def nextPrev (p : Option String) (l : List Block) : Option String :=
  match l with
  | [] => p
  | _ => some (lastHash l)

/-! ## Sample values used by the concrete witnesses -/

/-- A sample identity payload in the shape `src/main.py` appends. -/
def aliceData : Json :=
  Json.obj [("type", Json.str "identity"), ("name", Json.str "Alice"),
            ("id_number", Json.str "ID12345"), ("public_key", Json.str "AlicePublicKey")]

/-- A hand-built two-block ledger for lookup witnesses (`verify_identity`
never reads `hash` fields, so the placeholder hashes are irrelevant). -/
def sampleChain : Blockchain :=
  ⟨[⟨1, "0", 0, genesisData, "h1"⟩, ⟨2, "h1", 1, aliceData, "h2"⟩]⟩

/-- A sample `Identity` record. -/
def sampleIdentity : Identity := ⟨"uuid-1", "Alice", "ID12345", "AlicePublicKey"⟩

/-- A ledger whose only non-genesis payload was produced by
`Identity.to_dict`. -/
def sampleDictChain : Blockchain :=
  ⟨[⟨1, "0", 0, genesisData, "h1"⟩, ⟨2, "h1", 1, sampleIdentity.to_dict, "h2"⟩]⟩

/-! ## Canonical serialization: sorted members are order-independent -/

/-- Code-point comparison is antisymmetric on character lists. -/
theorem charListLe_antisymm :
    ∀ as bs, charListLe as bs = true → charListLe bs as = true → as = bs := by
  intro as
  induction as with
  | nil =>
    intro bs _ h2
    cases bs with
    | nil => rfl
    | cons b bs => simp [charListLe] at h2
  | cons a as ih =>
    intro bs h1 h2
    cases bs with
    | nil => simp [charListLe] at h1
    | cons b bs =>
      by_cases hab : a.toNat < b.toNat
      · simp [charListLe, hab, show ¬b.toNat < a.toNat by omega] at h2
      · by_cases hba : b.toNat < a.toNat
        · simp [charListLe, hab, hba] at h1
        · simp only [charListLe, if_neg hab, if_neg hba] at h1 h2
          have hn : a.toNat = b.toNat := Nat.le_antisymm (Nat.not_lt.mp hba) (Nat.not_lt.mp hab)
          have hc : a = b := Char.ext (UInt32.ext hn)
          rw [hc, ih bs h1 h2]

/-- Code-point comparison is antisymmetric on strings. -/
theorem strLe_antisymm (s t : String) (h1 : strLe s t = true) (h2 : strLe t s = true) :
    s = t :=
  String.ext (charListLe_antisymm s.data t.data h1 h2)

/-- Two sorted member lists that are permutations of each other and have
no duplicate keys are equal: heads with the minimal key are unique. -/
theorem sorted_perm_nodupKeys_eq :
    ∀ (l₁ l₂ : List (String × String)), l₁.Perm l₂ → l₁.Sorted keyLe →
      l₂.Sorted keyLe → (l₁.map Prod.fst).Nodup → l₁ = l₂ := by
  intro l₁
  induction l₁ with
  | nil => intro l₂ hp _ _ _; exact hp.nil_eq
  | cons a t₁ ih =>
    intro l₂ hp hs₁ hs₂ hnd
    match l₂ with
    | [] => exact absurd hp.symm.nil_eq (by simp)
    | b :: t₂ =>
      by_cases hab : a = b
      · subst hab
        have ht : t₁.Perm t₂ := hp.cons_inv
        have := ih t₂ ht (List.sorted_cons.mp hs₁).2 (List.sorted_cons.mp hs₂).2
          (by simpa using (List.nodup_cons.mp (by simpa using hnd)).2)
        rw [this]
      · exfalso
        have hbmem : b ∈ t₁ := by
          have : b ∈ a :: t₁ := hp.mem_iff.mpr (List.mem_cons_self b t₂)
          rcases List.mem_cons.mp this with h | h
          · exact absurd h.symm hab
          · exact h
        have hamem : a ∈ t₂ := by
          have : a ∈ b :: t₂ := hp.mem_iff.mp (List.mem_cons_self a t₁)
          rcases List.mem_cons.mp this with h | h
          · exact absurd h hab
          · exact h
        have h1 : keyLe a b := (List.sorted_cons.mp hs₁).1 b hbmem
        have h2 : keyLe b a := (List.sorted_cons.mp hs₂).1 a hamem
        have hkey : a.1 = b.1 := strLe_antisymm a.1 b.1 h1 h2
        have : a.1 ∉ t₁.map Prod.fst := (List.nodup_cons.mp (by simpa using hnd)).1
        exact this (hkey ▸ List.mem_map_of_mem Prod.fst hbmem)

/-- Sorting by key maps permuted duplicate-free member lists to the same
list. -/
theorem sortPairs_eq_of_perm (l₁ l₂ : List (String × String)) (hp : l₁.Perm l₂)
    (hnd : (l₁.map Prod.fst).Nodup) : sortPairs l₁ = sortPairs l₂ := by
  apply sorted_perm_nodupKeys_eq
  · exact (List.perm_insertionSort keyLe l₁).trans (hp.trans (List.perm_insertionSort keyLe l₂).symm)
  · exact List.sorted_insertionSort keyLe l₁
  · exact List.sorted_insertionSort keyLe l₂
  · exact ((List.perm_insertionSort keyLe l₁).map Prod.fst).nodup_iff.mpr hnd

/-- `dumpsPairs` is a `map`. -/
theorem dumpsPairs_eq_map (l : List (String × Json)) :
    dumpsPairs l = l.map (fun kv => (kv.1, dumps kv.2)) := by
  induction l with
  | nil => simp [dumpsPairs]
  | cons kv rest ih => cases kv; simp [dumpsPairs, ih]

/-- Serializing an object ignores member order when keys are distinct. -/
theorem dumps_obj_of_perm (l₁ l₂ : List (String × Json)) (hp : l₁.Perm l₂)
    (hnd : (l₁.map Prod.fst).Nodup) : dumps (Json.obj l₁) = dumps (Json.obj l₂) := by
  have hperm : (dumpsPairs l₁).Perm (dumpsPairs l₂) := by
    rw [dumpsPairs_eq_map, dumpsPairs_eq_map]; exact hp.map _
  have hkeys : (dumpsPairs l₁).map Prod.fst = l₁.map Prod.fst := by
    rw [dumpsPairs_eq_map, List.map_map]; rfl
  have hsort : sortPairs (dumpsPairs l₁) = sortPairs (dumpsPairs l₂) :=
    sortPairs_eq_of_perm _ _ hperm (by rw [hkeys]; exact hnd)
  simp only [dumps, hsort]

/-! ## Ledger helper lemmas -/

/-- `lastHash` reads the last element (position `length - 1`). -/
theorem lastHash_get : ∀ (l : List Block) (h : 0 < l.length),
    lastHash l = (l.get ⟨l.length - 1, by omega⟩).hash := by
  intro l
  induction l with
  | nil => intro h; simp at h
  | cons b rest ih =>
    intro _
    match rest with
    | [] => rfl
    | c :: rest2 =>
      have := ih (by simp)
      simp only [lastHash] at this ⊢
      rw [this]
      congr 1

/-- `lastHash` of a non-empty chain is the stored hash of `getLast`. -/
theorem lastHash_eq_getLast (l : List Block) (h : l ≠ []) :
    lastHash l = (l.getLast h).hash := by
  have h0 : 0 < l.length := List.length_pos.mpr h
  rw [lastHash_get l h0, List.getLast_eq_getElem]
  simp

/-- Appending a correctly hashed, correctly linked block preserves the
chain-validity invariant. -/
theorem chainValid_append (l : List Block) (b : Block)
    (hv : chainValid l)
    (hh : b.hash = hash_block b.index b.previous_hash b.timestamp b.data)
    (hp : b.previous_hash = lastHash l) :
    chainValid (l ++ [b]) := by
  obtain ⟨hv1, hv2, hv3⟩ := hv
  have hlen : (l ++ [b]).length = l.length + 1 := by simp
  refine ⟨?_, ?_, ?_⟩
  · intro i h
    simp only [List.get_eq_getElem] at *
    by_cases hi : i < l.length
    · rw [List.getElem_append_left hi]
      exact hv1 i hi
    · have hieq : i = l.length := by omega
      have hb : (l ++ [b])[i] = b := List.getElem_concat_length l b i hieq h
      rw [hb]
      exact hh
  · intro h
    simp only [List.get_eq_getElem] at *
    by_cases hl : 0 < l.length
    · rw [List.getElem_append_left hl]
      exact hv2 hl
    · have : l = [] := by
        cases l with
        | nil => rfl
        | cons x xs => simp at hl
      subst this
      simp only [List.nil_append, List.getElem_cons_zero]
      rw [hp]; rfl
  · intro i h
    simp only [List.get_eq_getElem] at *
    by_cases hi : i + 1 < l.length
    · rw [List.getElem_append_left hi, List.getElem_append_left (by omega)]
      exact hv3 i hi
    · have hieq : i + 1 = l.length := by
        simp only [List.length_append, List.length_singleton] at h
        omega
      have hil : i < l.length := by omega
      have hb2 : (l ++ [b])[i + 1] = b := List.getElem_concat_length l b (i + 1) hieq h
      rw [hb2, List.getElem_append_left hil, hp, lastHash_get l (by omega)]
      simp only [List.get_eq_getElem]
      simp only [show l.length - 1 = i by omega]

/-- The empty chain satisfies the invariant vacuously. -/
theorem chainValid_nil : chainValid [] := by
  refine ⟨?_, ?_, ?_⟩ <;> intro i <;> simp at i ⊢

/-- `create_block` preserves the chain-validity invariant. -/
theorem chainValid_create_block (bc : Blockchain) (d : Json) (t : Nat)
    (hv : chainValid bc.chain) : chainValid ((bc.create_block d t).2).chain := by
  exact chainValid_append bc.chain _ hv rfl rfl

/-- A property preserved by every `create_block` step holds after any
sequence of them. -/
theorem foldl_create_block_invariant (P : Blockchain → Prop)
    (hstep : ∀ bc d t, P bc → P ((bc.create_block d t).2)) :
    ∀ (inputs : List (Json × Nat)) (bc : Blockchain), P bc →
      P (inputs.foldl (fun bc pt => (bc.create_block pt.1 pt.2).2) bc) := by
  intro inputs
  induction inputs with
  | nil => intro bc h; exact h
  | cons pt rest ih =>
    intro bc h
    exact ih _ (hstep bc pt.1 pt.2 h)

/-- Every block of a built ledger stores the content hash of its own fields. -/
theorem build_hash_ok (inputs : List (Json × Nat)) (t0 : Nat) :
    ∀ b ∈ (buildLedger inputs t0).chain,
      b.hash = hash_block b.index b.previous_hash b.timestamp b.data := by
  unfold buildLedger
  apply foldl_create_block_invariant
    (fun bc => ∀ b ∈ bc.chain, b.hash = hash_block b.index b.previous_hash b.timestamp b.data)
  · intro bc d t hprev b hb
    rcases List.mem_append.mp hb with h | h
    · exact hprev b h
    · rw [List.mem_singleton.mp h]
  · intro b hb
    rcases List.mem_append.mp hb with h | h
    · simp at h
    · rw [List.mem_singleton.mp h]

/-- Claim C1: starting from a fresh `Blockchain()` and performing any finite
sequence of `create_block(data)` calls, the resulting chain satisfies the
chain-validity invariant: position 1 links to the sentinel `"0"`, every later
position links to the previous block's stored hash, and every stored hash is
`hash_block` of the block's own four fields. -/
theorem chain_validity_invariant (inputs : List (Json × Nat)) (t0 : Nat) :
    chainValid (buildLedger inputs t0).chain := by
  unfold buildLedger
  apply foldl_create_block_invariant (fun bc => chainValid bc.chain)
    (fun bc d t h => chainValid_create_block bc d t h)
  exact chainValid_create_block ⟨[]⟩ genesisData t0 chainValid_nil

/-- Concrete instance of the chain-validity invariant. -/
theorem chain_validity_invariant_witness :
    chainValid (buildLedger [(aliceData, 5)] 0).chain :=
  chain_validity_invariant [(aliceData, 5)] 0

/-- Claim C2: `create_block(p)` appends exactly one block: the chain grows by
one, the new block's `index` is the prior length plus one, its
`previous_hash` is the prior last block's stored hash, the new block is the
returned one, and every pre-existing block is unchanged in all five fields. -/
theorem create_block_effects (bc : Blockchain) (d : Json) (t : Nat) (h : bc.chain ≠ []) :
    ((bc.create_block d t).2).chain = bc.chain ++ [(bc.create_block d t).1]
    ∧ ((bc.create_block d t).2).chain.length = bc.chain.length + 1
    ∧ ((bc.create_block d t).1).index = bc.chain.length + 1
    ∧ ((bc.create_block d t).1).previous_hash = (bc.chain.getLast h).hash
    ∧ ∀ i, i < bc.chain.length → ((bc.create_block d t).2).chain[i]? = bc.chain[i]? := by
  refine ⟨rfl, by simp [Blockchain.create_block], rfl, lastHash_eq_getLast bc.chain h, ?_⟩
  intro i hi
  show (bc.chain ++ [(bc.create_block d t).1])[i]? = bc.chain[i]?
  exact List.getElem?_append_left hi

/-- Concrete instance of the `create_block` effects. -/
theorem create_block_effects_witness :
    ((sampleChain.create_block aliceData 7).2).chain.length = 3
    ∧ ((sampleChain.create_block aliceData 7).1).index = 3
    ∧ ((sampleChain.create_block aliceData 7).1).previous_hash =
        (sampleChain.chain.getLast (by simp [sampleChain])).hash := by
  obtain ⟨-, h2, h3, h4, -⟩ :=
    create_block_effects sampleChain aliceData 7 (by simp [sampleChain])
  exact ⟨h2, h3, h4⟩

/-- Claim C3: a fresh `Blockchain()` holds exactly the genesis block:
`index = 1`, `previous_hash = "0"`, the genesis payload, and a stored hash
equal to `hash_block` of those fields. -/
theorem genesis_block_spec (t : Nat) :
    (Blockchain.init t).chain = [⟨1, "0", t, genesisData, hash_block 1 "0" t genesisData⟩] :=
  rfl

/-- Concrete instance of the genesis description. -/
theorem genesis_block_spec_witness :
    (Blockchain.init 0).chain = [⟨1, "0", 0, genesisData, hash_block 1 "0" 0 genesisData⟩] :=
  genesis_block_spec 0

/-- Sorting after rendering maps permuted duplicate-free member lists to the
same rendered member list. -/
theorem sortPairs_dumpsPairs_congr (l₁ l₂ : List (String × Json)) (hp : l₁.Perm l₂)
    (hnd : (l₁.map Prod.fst).Nodup) :
    sortPairs (dumpsPairs l₁) = sortPairs (dumpsPairs l₂) := by
  have hperm : (dumpsPairs l₁).Perm (dumpsPairs l₂) := by
    rw [dumpsPairs_eq_map, dumpsPairs_eq_map]; exact hp.map _
  have hkeys : (dumpsPairs l₁).map Prod.fst = l₁.map Prod.fst := by
    rw [dumpsPairs_eq_map, List.map_map]; rfl
  exact sortPairs_eq_of_perm _ _ hperm (by rw [hkeys]; exact hnd)

/-- Claim C4: `hash_block` is deterministic, the sorted serialization makes
the digest independent of the payload's key insertion order, and recomputing
the content hash of any block of a built ledger reproduces its stored hash. -/
theorem hash_block_deterministic :
    (∀ (i : Nat) (p : String) (t : Nat) (l₁ l₂ : List (String × Json)),
        l₁.Perm l₂ → (l₁.map Prod.fst).Nodup →
        hash_block i p t (Json.obj l₁) = hash_block i p t (Json.obj l₂))
    ∧ (∀ (inputs : List (Json × Nat)) (t0 : Nat),
        ∀ b ∈ (buildLedger inputs t0).chain,
          hash_block b.index b.previous_hash b.timestamp b.data = b.hash) := by
  constructor
  · intro i p t l₁ l₂ hp hnd
    have hsort := sortPairs_dumpsPairs_congr l₁ l₂ hp hnd
    unfold hash_block strBytes
    simp only [dumps, dumpsPairs, hsort]
  · intro inputs t0 b hb
    exact (build_hash_ok inputs t0 b hb).symm

/-- Concrete instance of hashing determinism: the same two-key payload built
in either insertion order hashes identically, and recomputing the genesis
content hash reproduces the stored one. -/
theorem hash_block_deterministic_witness :
    hash_block 1 "0" 2 (Json.obj [("name", Json.str "Alice"), ("type", Json.str "identity")]) =
      hash_block 1 "0" 2 (Json.obj [("type", Json.str "identity"), ("name", Json.str "Alice")])
    ∧ hash_block 1 "0" 0 genesisData =
        (⟨1, "0", 0, genesisData, hash_block 1 "0" 0 genesisData⟩ : Block).hash := by
  constructor
  · exact hash_block_deterministic.1 1 "0" 2 _ _
      (List.Perm.swap ("type", Json.str "identity") ("name", Json.str "Alice") [])
      (by decide)
  · exact hash_block_deterministic.2 [] 0
      ⟨1, "0", 0, genesisData, hash_block 1 "0" 0 genesisData⟩
      (List.mem_singleton_self _)

/-! ## `validate()` lemmas -/

/-- Pushing the walk one block forward keeps the linkage expectation. -/
theorem nextPrev_cons (p : Option String) (x : Block) (rest : List Block) :
    nextPrev p (x :: rest) = nextPrev (some x.hash) rest := by
  cases rest with
  | nil => rfl
  | cons y r => rfl

/-- Appending a correctly hashed, correctly linked block keeps `validate`'s
walk reporting success. -/
theorem validateFrom_snoc_valid :
    ∀ (l : List Block) (i : Nat) (p : Option String) (b : Block),
      validateFrom i p l = .valid →
      b.hash = hash_block b.index b.previous_hash b.timestamp b.data →
      (∀ q, nextPrev p l = some q → b.previous_hash = q) →
      validateFrom i p (l ++ [b]) = .valid := by
  intro l
  induction l with
  | nil =>
    intro i p b _ hh hl
    cases p with
    | none => simp [validateFrom, hh]
    | some q => simp [validateFrom, hh, hl q rfl]
  | cons x rest ih =>
    intro i p b hv hh hl
    by_cases hx : x.hash = hash_block x.index x.previous_hash x.timestamp x.data
    · cases p with
      | none =>
        simp only [validateFrom, if_pos hx] at hv
        simp only [List.cons_append, validateFrom, if_pos hx]
        exact ih (i + 1) (some x.hash) b hv hh
          (fun q hq => hl q (by rw [nextPrev_cons]; exact hq))
      | some q =>
        by_cases hpx : x.previous_hash = q
        · simp only [validateFrom, if_pos hx, if_pos hpx] at hv
          simp only [List.cons_append, validateFrom, if_pos hx, if_pos hpx]
          exact ih (i + 1) (some x.hash) b hv hh
            (fun q2 hq2 => hl q2 (by rw [nextPrev_cons]; exact hq2))
        · simp [validateFrom, hx, hpx] at hv
    · simp [validateFrom, hx] at hv

/-- Replacing any block whose stored hash disagrees with its recomputed
content hash makes the walk fail exactly at that position. -/
theorem validateFrom_set_invalid :
    ∀ (l : List Block) (j i : Nat) (p : Option String) (b' : Block),
      validateFrom i p l = .valid → j < l.length →
      b'.hash ≠ hash_block b'.index b'.previous_hash b'.timestamp b'.data →
      validateFrom i p (l.set j b') = .invalidAt (i + j) := by
  intro l
  induction l with
  | nil => intro j i p b' _ hj _; simp at hj
  | cons x rest ih =>
    intro j i p b' hv hj hbad
    by_cases hx : x.hash = hash_block x.index x.previous_hash x.timestamp x.data
    · match j with
      | 0 =>
        simp only [List.set_cons_zero]
        simp [validateFrom, hbad]
      | k + 1 =>
        simp only [List.set_cons_succ]
        cases p with
        | none =>
          simp only [validateFrom, if_pos hx] at hv ⊢
          rw [ih k (i + 1) (some x.hash) b' hv (by simpa using hj) hbad]
          congr 1
          omega
        | some q =>
          by_cases hpx : x.previous_hash = q
          · simp only [validateFrom, if_pos hx, if_pos hpx] at hv ⊢
            rw [ih k (i + 1) (some x.hash) b' hv (by simpa using hj) hbad]
            congr 1
            omega
          · simp [validateFrom, hx, hpx] at hv
    · simp [validateFrom, hx] at hv

/-- `validate()` reports success on every ledger built by appends alone. -/
theorem validate_build_valid (inputs : List (Json × Nat)) (t0 : Nat) :
    (buildLedger inputs t0).validate = .valid := by
  unfold buildLedger
  apply foldl_create_block_invariant (fun bc => bc.validate = .valid)
  · intro bc d t hv
    show Blockchain.validate ((bc.create_block d t).2) = .valid
    refine validateFrom_snoc_valid bc.chain 1 none (bc.create_block d t).1 hv rfl ?_
    intro q hq
    show lastHash bc.chain = q
    cases hc : bc.chain with
    | nil => rw [hc] at hq; exact absurd hq (by simp [nextPrev])
    | cons y r =>
      rw [hc] at hq
      simp only [nextPrev] at hq
      rw [← hc] at hq ⊢
      exact (Option.some_injective _ hq)
  · show Blockchain.validate (Blockchain.init t0) = .valid
    refine validateFrom_snoc_valid [] 1 none
      ((⟨[]⟩ : Blockchain).create_block genesisData t0).1 rfl rfl ?_
    intro q hq
    exact absurd hq (by simp [nextPrev])

/-- Claim C5 (validate modelled from the spec): `validate()` reports success
on any untampered ledger built by appends; and replacing any block of a
valid chain by one whose stored hash differs from its recomputed content
hash — which any single-field mutation produces, barring a SHA-256
collision, and which a mutation of the `hash` field itself produces
outright — makes `validate()` report exactly that block's 1-based position
as the first invalid one. -/
theorem validate_detects_tampering :
    (∀ (inputs : List (Json × Nat)) (t0 : Nat), (buildLedger inputs t0).validate = .valid)
    ∧ (∀ (bc : Blockchain) (i : Nat) (b' : Block),
        bc.validate = .valid → i < bc.chain.length →
        b'.hash ≠ hash_block b'.index b'.previous_hash b'.timestamp b'.data →
        Blockchain.validate ⟨bc.chain.set i b'⟩ = .invalidAt (i + 1)) := by
  constructor
  · exact validate_build_valid
  · intro bc i b' hv hi hbad
    show validateFrom 1 none (bc.chain.set i b') = .invalidAt (i + 1)
    rw [validateFrom_set_invalid bc.chain i 1 none b' hv hi hbad]
    congr 1
    omega

set_option maxRecDepth 100000 in
/-- Concrete instance: tampering with the first (non-last) block of a
two-block ledger is reported at position 1. -/
theorem validate_detects_tampering_witness :
    Blockchain.validate
        ⟨(buildLedger [(aliceData, 3)] 0).chain.set 0 ⟨1, "0", 0, genesisData, "tampered"⟩⟩ =
      .invalidAt 1 :=
  validate_detects_tampering.2 (buildLedger [(aliceData, 3)] 0) 0
    ⟨1, "0", 0, genesisData, "tampered"⟩
    (validate_detects_tampering.1 [(aliceData, 3)] 0)
    (by decide)
    (by decide)

/-! ## `verify_identity` lemmas -/

/-- The scan either finds no matching block and returns `none`, or returns
the payload of the first (lowest-position) matching block. -/
theorem verifyScan_characterization :
    ∀ (l : List Block) (q : String),
      (verifyScan l q = none ∧ ∀ i (h : i < l.length), identityMatch q (l.get ⟨i, h⟩) = false)
      ∨ (∃ i, ∃ h : i < l.length,
          verifyScan l q = some ((l.get ⟨i, h⟩).data)
          ∧ identityMatch q (l.get ⟨i, h⟩) = true
          ∧ ∀ j (hj : j < i), identityMatch q (l.get ⟨j, Nat.lt_trans hj h⟩) = false) := by
  intro l
  induction l with
  | nil =>
    intro q
    left
    exact ⟨rfl, fun i h => absurd h (by simp)⟩
  | cons b rest ih =>
    intro q
    by_cases hm : identityMatch q b = true
    · right
      obtain ⟨ht, hid⟩ : typeIsIdentity b.data = true ∧ idMatches b.data q = true := by
        simpa [identityMatch] using hm
      refine ⟨0, Nat.succ_pos _, ?_, ?_, ?_⟩
      · show verifyScan (b :: rest) q = some b.data
        simp [verifyScan, ht, hid]
      · exact hm
      · intro j hj
        exact absurd hj (Nat.not_lt_zero j)
    · have hmf : identityMatch q b = false := by
        revert hm; cases identityMatch q b <;> simp
      have hskip : verifyScan (b :: rest) q = verifyScan rest q := by
        rcases Bool.and_eq_false_iff.mp hmf with ht | hid
        · simp [verifyScan, ht]
        · by_cases ht : typeIsIdentity b.data = true
          · simp [verifyScan, ht, hid]
          · have : typeIsIdentity b.data = false := by
              revert ht; cases typeIsIdentity b.data <;> simp
            simp [verifyScan, this]
      rcases ih q with ⟨hn, hall⟩ | ⟨i, h, he, hmt, hf⟩
      · left
        refine ⟨hskip.trans hn, ?_⟩
        intro i hi
        match i with
        | 0 => exact hmf
        | i' + 1 =>
          have := hall i' (by simpa using hi)
          simpa using this
      · right
        refine ⟨i + 1, by simpa using Nat.succ_lt_succ h, ?_, ?_, ?_⟩
        · rw [hskip]
          simpa using he
        · simpa using hmt
        · intro j hj
          match j with
          | 0 => exact hmf
          | j' + 1 =>
            have := hf j' (by omega)
            simpa using this

/-- A chain none of whose payloads carries the `"identity"` type tag makes
the scan return `none`. -/
theorem verifyScan_none_of_no_type :
    ∀ (l : List Block) (q : String),
      (∀ b ∈ l, typeIsIdentity b.data = false) → verifyScan l q = none := by
  intro l
  induction l with
  | nil => intro q _; rfl
  | cons b rest ih =>
    intro q hall
    have hb := hall b (List.mem_cons_self b rest)
    simp only [verifyScan, hb, Bool.false_eq_true, if_false]
    exact ih q (fun x hx => hall x (List.mem_cons_of_mem b hx))

/-- A successful scan result is a type-tagged payload of some block. -/
theorem verifyScan_some_shape :
    ∀ (l : List Block) (q : String) (d : Json),
      verifyScan l q = some d → typeIsIdentity d = true ∧ d ∈ l.map Block.data := by
  intro l
  induction l with
  | nil => intro q d h; simp [verifyScan] at h
  | cons b rest ih =>
    intro q d h
    by_cases ht : typeIsIdentity b.data = true
    · by_cases hid : idMatches b.data q = true
      · have hbd : some b.data = some d := by simpa [verifyScan, ht, hid] using h
        obtain rfl := Option.some_injective _ hbd
        exact ⟨ht, by simp⟩
      · have hidf : idMatches b.data q = false := by
          revert hid; cases idMatches b.data q <;> simp
        have hres : verifyScan rest q = some d := by simpa [verifyScan, ht, hidf] using h
        obtain ⟨h1, h2⟩ := ih q d hres
        exact ⟨h1, by simp [h2]⟩
    · have htf : typeIsIdentity b.data = false := by
        revert ht; cases typeIsIdentity b.data <;> simp
      have hres : verifyScan rest q = some d := by simpa [verifyScan, htf] using h
      obtain ⟨h1, h2⟩ := ih q d hres
      exact ⟨h1, by simp [h2]⟩

/-- Claim C6: `verify_identity` is a linear forward scan that returns the
payload of the first (lowest-position) block whose dictionary payload has
`type = "identity"` and whose `id_number` equals the query exactly
(string equality, so case-sensitive and unnormalized), and returns `None`
as a normal result when no block matches. -/
theorem verify_identity_first_match (bc : Blockchain) (q : String) :
    (verify_identity bc q = none
      ∧ ∀ i (h : i < bc.chain.length), identityMatch q (bc.chain.get ⟨i, h⟩) = false)
    ∨ (∃ i, ∃ h : i < bc.chain.length,
        verify_identity bc q = some ((bc.chain.get ⟨i, h⟩).data)
        ∧ identityMatch q (bc.chain.get ⟨i, h⟩) = true
        ∧ ∀ j (hj : j < i), identityMatch q (bc.chain.get ⟨j, Nat.lt_trans hj h⟩) = false) :=
  verifyScan_characterization bc.chain q

/-- Concrete instance: on a ledger holding a genesis block and Alice's
identity payload, the registered id is found and an unknown id reports
not-found. -/
theorem verify_identity_first_match_witness :
    verify_identity sampleChain "ID12345" = some aliceData
    ∧ verify_identity sampleChain "ID99999" = none := by
  constructor
  · rcases verify_identity_first_match sampleChain "ID12345" with ⟨hn, hall⟩ | ⟨i, h, he, hmt, hf⟩
    · exact absurd (hall 1 (by decide)) (by decide)
    · have h2 : i < 2 := by simpa [sampleChain] using h
      interval_cases i
      · rw [show sampleChain.chain.get ⟨0, h⟩ = ⟨1, "0", 0, genesisData, "h1"⟩ from rfl] at hmt
        exact absurd hmt (by decide)
      · rw [he]; rfl
  · rcases verify_identity_first_match sampleChain "ID99999" with ⟨hn, hall⟩ | ⟨i, h, he, hmt, hf⟩
    · exact hn
    · have h2 : i < 2 := by simpa [sampleChain] using h
      interval_cases i
      · rw [show sampleChain.chain.get ⟨0, h⟩ = ⟨1, "0", 0, genesisData, "h1"⟩ from rfl] at hmt
        exact absurd hmt (by decide)
      · rw [show sampleChain.chain.get ⟨1, h⟩ = ⟨2, "h1", 1, aliceData, "h2"⟩ from rfl] at hmt
        exact absurd hmt (by decide)

/-- Claim C7 (amended): `create_identity` returns the `Identity` record
carrying exactly the supplied fields plus the generated uuid; it touches no
ledger, and its `to_dict` payload carries the four record keys and no
`type` tag. -/
theorem create_identity_returns_record (name id_number public_key u : String) :
    (create_identity name id_number public_key u).uuid = u
    ∧ (create_identity name id_number public_key u).name = name
    ∧ (create_identity name id_number public_key u).id_number = id_number
    ∧ (create_identity name id_number public_key u).public_key = public_key
    ∧ jsonKeys (create_identity name id_number public_key u).to_dict =
        ["uuid", "name", "id_number", "public_key"]
    ∧ jsonGet (create_identity name id_number public_key u).to_dict "type" = none := by
  refine ⟨rfl, rfl, rfl, rfl, rfl, ?_⟩
  simp [create_identity, Identity.to_dict, jsonGet, dictGet]

/-- Counterexample to claim C7 as stated: the payload built from
`create_identity`'s record is not tagged `type = "identity"` (it has no
`type` key at all), so it is not the tagged record-registry payload the
claim describes. -/
theorem create_identity_untagged_counterexample :
    typeIsIdentity (Identity.to_dict (create_identity "Alice" "ID12345" "AlicePublicKey" "uuid-0"))
      = false := by decide

/-- Claim C8 (amended): `create_identity` performs no input validation and
cannot fail: even when the supplied name or id number is empty it returns
the record with the supplied fields unchanged, rather than raising a
`ValidationError`. -/
theorem create_identity_no_validation (name id_number public_key u : String)
    (_h : name = "" ∨ id_number = "") :
    create_identity name id_number public_key u = ⟨u, name, id_number, public_key⟩ := rfl

/-- Concrete instance: an empty name is accepted. -/
theorem create_identity_no_validation_witness :
    create_identity "" "ID12345" "PublicKey" "uuid-0" = ⟨"uuid-0", "", "ID12345", "PublicKey"⟩ :=
  create_identity_no_validation "" "ID12345" "PublicKey" "uuid-0" (Or.inl rfl)

/-- Counterexample to claim C8 as stated: with an empty name and an empty id
number, `create_identity` still returns a record normally instead of
failing with a `ValidationError`. -/
theorem create_identity_accepts_empty_counterexample :
    create_identity "" "" "PublicKey" "uuid-0" = ⟨"uuid-0", "", "", "PublicKey"⟩ := rfl

/-- Claim C9: `Identity.to_dict` produces exactly the keys `uuid`, `name`,
`id_number`, `public_key` — no `type` key — so on any ledger whose
non-genesis payloads were all produced by `Identity.to_dict`,
`verify_identity` returns `None` for every query. -/
theorem to_dict_payloads_invisible (bc : Blockchain) (q : String) (x : Identity)
    (hyp : ∀ b ∈ bc.chain, b.data = genesisData ∨ ∃ y : Identity, b.data = y.to_dict) :
    jsonKeys x.to_dict = ["uuid", "name", "id_number", "public_key"]
    ∧ jsonGet x.to_dict "type" = none
    ∧ verify_identity bc q = none := by
  refine ⟨rfl, ?_, ?_⟩
  · simp [Identity.to_dict, jsonGet, dictGet]
  · apply verifyScan_none_of_no_type
    intro b hb
    rcases hyp b hb with hg | ⟨y, hy⟩
    · rw [hg]; decide
    · rw [hy]
      simp [Identity.to_dict, typeIsIdentity, jsonGet, dictGet, Json.isObj]

/-- Concrete instance: a ledger whose only non-genesis payload came from
`Identity.to_dict` answers every lookup with `None`, even for the very
id number stored in that payload. -/
theorem to_dict_payloads_invisible_witness :
    jsonKeys sampleIdentity.to_dict = ["uuid", "name", "id_number", "public_key"]
    ∧ jsonGet sampleIdentity.to_dict "type" = none
    ∧ verify_identity sampleDictChain "ID12345" = none := by
  refine to_dict_payloads_invisible sampleDictChain "ID12345" sampleIdentity ?_
  intro b hb
  simp only [sampleDictChain, List.mem_cons, List.mem_singleton, List.not_mem_nil, or_false] at hb
  rcases hb with rfl | rfl
  · exact Or.inl rfl
  · exact Or.inr ⟨sampleIdentity, rfl⟩

/-- Claim C10: `verify_identity` is total over arbitrary payloads — blocks
whose data is not a dictionary are skipped and can never be returned — and
any returned payload is a dictionary tagged `type = "identity"` taken from
some block of the chain; in particular the genesis payload is never
returned. -/
theorem verify_identity_safe (bc : Blockchain) (q : String) (d : Json)
    (h : verify_identity bc q = some d) :
    d.isObj = true ∧ typeIsIdentity d = true ∧ d ≠ genesisData ∧ d ∈ bc.chain.map Block.data := by
  obtain ⟨h1, h2⟩ := verifyScan_some_shape bc.chain q d h
  refine ⟨?_, h1, ?_, h2⟩
  · have h1b := h1
    simp only [typeIsIdentity, Bool.and_eq_true] at h1b
    exact h1b.1
  · intro hcontra
    rw [hcontra] at h1
    exact absurd h1 (by decide)

/-- Concrete instance: the lookup on a chain with one identity payload (and
one non-dictionary payload) returns Alice's dictionary, which is tagged and
is not the genesis payload. -/
theorem verify_identity_safe_witness :
    aliceData.isObj = true
    ∧ typeIsIdentity aliceData = true
    ∧ aliceData ≠ genesisData
    ∧ aliceData ∈ (Blockchain.mk [⟨1, "0", 0, Json.str "opaque", "h1"⟩,
        ⟨2, "h1", 1, aliceData, "h2"⟩]).chain.map Block.data :=
  verify_identity_safe
    (Blockchain.mk [⟨1, "0", 0, Json.str "opaque", "h1"⟩, ⟨2, "h1", 1, aliceData, "h2"⟩])
    "ID12345" aliceData rfl
